import Mathlib

/-!
# ace-auth: shallow embedding of the store adapters and the request adapter

This file embeds, in Lean, the parts of the `ace-auth` repository that the
verified claims are about:

* `MemoryStore` (src/unnamed/part_005): a JS `Map`-backed store with lazy
  expiry.  The `setTimeout` reclamation timers are an optional memory
  optimisation (the spec states correctness never depends on a background
  sweep), so the embedding models the map contents and the lazy-expiry
  checks that the methods perform at call time.
* `MongoStore` (src/src/adapters/MongoStore.ts, and the older copy embedded
  in src/unnamed/part_003): a document store keyed by `_id`, holding
  `{data, userId, expiresAt}` per document.
* `PostgresStore` (src/unnamed/part_004): a relational store with rows
  `(sid, sess, user_id, expired_at)`, table-name validation at construction.
* `gatekeeper` (src/unnamed/part_003): the Express middleware translating a
  request's Authorization header into an `authorize` call and a response.

Time is modelled as `Nat` milliseconds (`Date.now()`); each operation takes
the clock value `now` observed by its `Date.now()` call.  Fallible JS calls
(`JSON.parse` throwing, property access on `null`) are modelled with
`Except`/`Option`.

JSON: the adapters call `JSON.parse` and `JSON.stringify`.  We embed a JSON
value type plus an executable parser and serialiser mirroring the JS
behaviour on the fragment the adapters exercise (objects, arrays, strings
with the standard single-character escapes, integer numbers, booleans,
null).  The parser is conservative: it rejects `\u` escapes and non-integer
numbers, which the stored session payloads never contain.  As in JS,
duplicate object keys keep the first key position with the last value, and
`JSON.stringify` emits no whitespace.
-/

set_option linter.unusedVariables false

namespace AceAuth

/-- A JSON value (the fragment the adapters exercise). -/
inductive Json where
  | null
  | bool (b : Bool)
  | num (n : Int)
  | str (s : String)
  | arr (elems : List Json)
  | obj (fields : List (String × Json))

/-- Whitespace accepted by `JSON.parse`. -/
def jsonWs (c : Char) : Bool :=
  c = ' ' || c = '\t' || c = '\n' || c = '\r'

/-- Drop leading JSON whitespace. -/
def skipWs : List Char → List Char
  | [] => []
  | c :: cs => if jsonWs c then skipWs cs else c :: cs

/-- Decode a single-character escape (after a backslash) as `JSON.parse`
does; `\u` escapes are not supported (the parser fails on them). -/
def escChar? (c : Char) : Option Char :=
  if c = '"' then some '"'
  else if c = '\\' then some '\\'
  else if c = '/' then some '/'
  else if c = 'b' then some (Char.ofNat 8)
  else if c = 'f' then some (Char.ofNat 12)
  else if c = 'n' then some '\n'
  else if c = 'r' then some '\r'
  else if c = 't' then some '\t'
  else none

/-- Parse the body of a JSON string literal (the opening quote already
consumed), returning the decoded string and the rest of the input.
Unescaped control characters are rejected, as in `JSON.parse`. -/
def parseStrBody : List Char → Option (String × List Char)
  | [] => none
  | '"' :: cs => some ("", cs)
  | '\\' :: [] => none
  | '\\' :: e :: cs =>
    match escChar? e with
    | none => none
    | some c =>
      match parseStrBody cs with
      | none => none
      | some (s, rest) => some (c.toString ++ s, rest)
  | c :: cs =>
    if c.toNat < 32 then none
    else
      match parseStrBody cs with
      | none => none
      | some (s, rest) => some (c.toString ++ s, rest)

/-- Maximal run of decimal digits. -/
def takeDigits : List Char → (List Char × List Char)
  | [] => ([], [])
  | c :: cs =>
    if c.isDigit then
      let (ds, rest) := takeDigits cs
      (c :: ds, rest)
    else ([], c :: cs)

/-- Digits to a natural number. -/
def digitsToNat (ds : List Char) : Nat :=
  ds.foldl (fun n c => n * 10 + (c.toNat - 48)) 0

/-- Parse a JSON number.  JSON forbids leading zeros; fractions and
exponents are rejected by this conservative parser (session payloads never
contain them). -/
def parseNum : List Char → Option (Json × List Char)
  | cs =>
    let (neg, cs') := match cs with
      | '-' :: rest => (true, rest)
      | _ => (false, cs)
    match takeDigits cs' with
    | ([], _) => none
    | (d :: ds, rest) =>
      if d = '0' && ds ≠ [] then none
      else
        match rest with
        | '.' :: _ => none
        | 'e' :: _ => none
        | 'E' :: _ => none
        | _ =>
          let n : Int := Int.ofNat (digitsToNat (d :: ds))
          some (.num (if neg then -n else n), rest)

/-- Insert a key into an object under construction the way a JS object
literal grows during `JSON.parse`: a duplicate key keeps its first
position but takes the last value. -/
def objInsert (fs : List (String × Json)) (k : String) (v : Json) :
    List (String × Json) :=
  if fs.any (fun p => p.1 = k) then
    fs.map (fun p => if p.1 = k then (k, v) else p)
  else fs ++ [(k, v)]

mutual

/-- Fuel-indexed JSON value parser (whitespace already significant at entry
points is skipped here). -/
def parseVal : Nat → List Char → Option (Json × List Char)
  | 0, _ => none
  | fuel + 1, cs =>
    match skipWs cs with
    | [] => none
    | 'n' :: 'u' :: 'l' :: 'l' :: rest => some (.null, rest)
    | 't' :: 'r' :: 'u' :: 'e' :: rest => some (.bool true, rest)
    | 'f' :: 'a' :: 'l' :: 's' :: 'e' :: rest => some (.bool false, rest)
    | '"' :: rest =>
      match parseStrBody rest with
      | none => none
      | some (s, rest') => some (.str s, rest')
    | '[' :: rest =>
      match skipWs rest with
      | ']' :: rest' => some (.arr [], rest')
      | rest' => parseArrElems fuel rest' []
    | '{' :: rest =>
      match skipWs rest with
      | '}' :: rest' => some (.obj [], rest')
      | rest' => parseObjFields fuel rest' []
    | cs' => parseNum cs'

/-- Parse the elements of a non-empty array, accumulating in order. -/
def parseArrElems : Nat → List Char → List Json → Option (Json × List Char)
  | 0, _, _ => none
  | fuel + 1, cs, acc =>
    match parseVal fuel cs with
    | none => none
    | some (v, rest) =>
      match skipWs rest with
      | ',' :: rest' => parseArrElems fuel rest' (acc ++ [v])
      | ']' :: rest' => some (.arr (acc ++ [v]), rest')
      | _ => none

/-- Parse the fields of a non-empty object, accumulating in order. -/
def parseObjFields : Nat → List Char → List (String × Json) →
    Option (Json × List Char)
  | 0, _, _ => none
  | fuel + 1, cs, acc =>
    match skipWs cs with
    | '"' :: rest =>
      match parseStrBody rest with
      | none => none
      | some (k, rest') =>
        match skipWs rest' with
        | ':' :: rest'' =>
          match parseVal fuel rest'' with
          | none => none
          | some (v, rest''') =>
            match skipWs rest''' with
            | ',' :: r => parseObjFields fuel r (objInsert acc k v)
            | '}' :: r => some (.obj (objInsert acc k v), r)
            | _ => none
        | _ => none
    | _ => none

end

/-- `JSON.parse`: parse a whole string as one JSON value (trailing
whitespace allowed, anything else rejected); `none` models a thrown
`SyntaxError`. -/
def Json.parse (s : String) : Option Json :=
  match parseVal (2 * s.length + 4) s.data with
  | none => none
  | some (j, rest) =>
    match skipWs rest with
    | [] => some j
    | _ => none

/-- Serialise one character of a JSON string as `JSON.stringify` does
(control characters below 0x20 other than the named escapes do not occur
in parsed payloads and are emitted verbatim here). -/
def escOut (c : Char) : String :=
  if c = '"' then "\\\""
  else if c = '\\' then "\\\\"
  else if c = '\n' then "\\n"
  else if c = '\r' then "\\r"
  else if c = '\t' then "\\t"
  else if c.toNat = 8 then "\\b"
  else if c.toNat = 12 then "\\f"
  else c.toString

/-- Serialise a string literal. -/
def strLit (s : String) : String :=
  "\"" ++ String.join (s.data.map escOut) ++ "\""

mutual

/-- `JSON.stringify` (no indentation: no whitespace is emitted). -/
def Json.stringify : Json → String
  | .null => "null"
  | .bool true => "true"
  | .bool false => "false"
  | .num n => toString n
  | .str s => strLit s
  | .arr xs => "[" ++ stringifyElems xs ++ "]"
  | .obj fs => "\x7b" ++ stringifyFields fs ++ "\x7d"

def stringifyElems : List Json → String
  | [] => ""
  | [x] => Json.stringify x
  | x :: xs => Json.stringify x ++ "," ++ stringifyElems xs

def stringifyFields : List (String × Json) → String
  | [] => ""
  | [(k, v)] => strLit k ++ ":" ++ Json.stringify v
  | (k, v) :: fs => strLit k ++ ":" ++ Json.stringify v ++ "," ++ stringifyFields fs

end

/-- First field with the given name (after `JSON.parse` keys are unique). -/
def jsField : List (String × Json) → String → Option Json
  | [], _ => none
  | (k, v) :: fs, f => if k = f then some v else jsField fs f

/-- JS property read `j.f` on a parsed value: `Except.error ()` models the
`TypeError` thrown when `j` is `null`; reading a property of a primitive
or an array yields `undefined` (`Option.none`). -/
def jsMember (j : Json) (f : String) : Except Unit (Option Json) :=
  match j with
  | .null => .error ()
  | .obj fs => .ok (jsField fs f)
  | _ => .ok none

/-- JS strict equality `j.f === v` for a string `v` (false when the read
yields `undefined` or a non-string). -/
def jsFieldIsStr (j : Json) (f v : String) : Bool :=
  match j with
  | .obj fs =>
    match jsField fs f with
    | some (.str x) => x = v
    | _ => false
  | _ => false

/-!
## Keyed collections

All three stores are keyed by a unique string (the `Map` key, the Mongo
`_id`, the Postgres `sid` primary key).  We model each as an association
list with unique keys; `aset` overwrites in place (a JS `Map` keeps the
original insertion position on overwrite, a Mongo upsert / SQL `ON
CONFLICT DO UPDATE` rewrites the existing document/row) or appends.
-/

/-- Lookup by key (`Map.get`, `findOne({_id})`, `WHERE sid = $1`). -/
def alookup {α : Type} : List (String × α) → String → Option α
  | [], _ => none
  | (k, v) :: l, k' => if k' = k then some v else alookup l k'

/-- Upsert: overwrite the entry in place if the key is present, append
otherwise. -/
def aset {α : Type} (l : List (String × α)) (k : String) (v : α) :
    List (String × α) :=
  if (alookup l k).isSome then
    l.map (fun p => if p.1 = k then (k, v) else p)
  else l ++ [(k, v)]

/-- Removal by key (`Map.delete`, `deleteOne({_id})`, `DELETE WHERE sid`). -/
def aerase {α : Type} (l : List (String × α)) (k : String) :
    List (String × α) :=
  l.filter (fun p => p.1 ≠ k)

/-- Update the value at a key, leaving everything else in place (`UPDATE
... SET ... WHERE sid = $2`, `updateOne({_id}, {$set})` with no upsert). -/
def aupdate {α : Type} (l : List (String × α)) (k : String) (f : α → α) :
    List (String × α) :=
  l.map (fun p => if p.1 = k then (k, f p.2) else p)

/-!
## MemoryStore (src/unnamed/part_005)

`cache : Map<string, { value, expiresAt }>`.  The engine always passes
string payloads (`IStore.set(key, value: string, ...)`), so `value` is a
`String` here; `findAllByUser`'s `typeof item.value === 'string'` branch is
therefore always taken.  The `setTimeout`/`clearTimeout` reclamation timers
only affect physical memory reclamation and are not modelled; every method
is modelled by the checks it performs against the map at call time.
-/

structure MemRecord where
  value : String
  expiresAt : Nat

structure MemoryStore where
  cache : List (String × MemRecord)

def MemoryStore.empty : MemoryStore := ⟨[]⟩

/-- `set(key, value, ttlSeconds)`: store `{value, expiresAt: now + ttl*1000}`. -/
def MemoryStore.set (s : MemoryStore) (now : Nat) (key value : String)
    (ttlSeconds : Nat) : MemoryStore :=
  ⟨aset s.cache key ⟨value, now + ttlSeconds * 1000⟩⟩

/-- `delete(key)`. -/
def MemoryStore.delete (s : MemoryStore) (key : String) : MemoryStore :=
  ⟨aerase s.cache key⟩

/-- `get(key)`: absent → null; expired (`Date.now() > item.expiresAt`) →
delete and null; otherwise the stored value.  Returns the result together
with the store state after the call. -/
def MemoryStore.get (s : MemoryStore) (now : Nat) (key : String) :
    Option String × MemoryStore :=
  match alookup s.cache key with
  | none => (none, s)
  | some item =>
    if now > item.expiresAt then (none, s.delete key)
    else (some item.value, s)

/-- `touch(key, ttlSeconds)`: re-`set` the existing value with the new ttl
(only when the key is present). -/
def MemoryStore.touch (s : MemoryStore) (now : Nat) (key : String)
    (ttlSeconds : Nat) : MemoryStore :=
  match alookup s.cache key with
  | none => s
  | some item => s.set now key item.value ttlSeconds

/-- JS strict equality of a property-read result against a string:
`undefined` and non-strings compare false. -/
def strEqOpt : Option Json → String → Bool
  | some (.str x), u => x = u
  | _, _ => false

/-- `findAllByUser(userId)`: scan every entry; JSON-parse failures skip the
entry (`catch { continue }`); the unguarded `user.id`/`user._id` reads
throw on a parsed `null`, aborting the whole call (`Except.error`);
otherwise the entry is included when
`user.id === userId || user._id === userId` (both reads throw on exactly
the same inputs, so evaluating both is extensionally the JS
short-circuit). -/
def MemoryStore.findAllByUserGo (uid : String) :
    List (String × MemRecord) → Except Unit (List String)
  | [] => .ok []
  | (_, item) :: rest =>
    match Json.parse item.value with
    | none => MemoryStore.findAllByUserGo uid rest
    | some user =>
      match jsMember user "id", jsMember user "_id" with
      | .error e, _ => .error e
      | .ok _, .error e => .error e
      | .ok idv, .ok idv2 =>
        if strEqOpt idv uid || strEqOpt idv2 uid then
          match MemoryStore.findAllByUserGo uid rest with
          | .error e => .error e
          | .ok l => .ok (item.value :: l)
        else MemoryStore.findAllByUserGo uid rest

/-- The per-record ownership test `findAllByUser` applies, as a predicate:
the value parses to a non-null JSON value whose `id` or `_id` property is
the user id string. -/
def memUserMatches (uid value : String) : Bool :=
  match Json.parse value with
  | none => false
  | some user =>
    match jsMember user "id", jsMember user "_id" with
    | .ok idv, .ok idv2 => strEqOpt idv uid || strEqOpt idv2 uid
    | _, _ => false

def MemoryStore.findAllByUser (s : MemoryStore) (uid : String) :
    Except Unit (List String) :=
  MemoryStore.findAllByUserGo uid s.cache

/-- `deleteByUser(userId)`: the method body is empty in the source
("Implementation omitted for benchmark speed"), so the store is returned
unchanged. -/
def MemoryStore.deleteByUser (s : MemoryStore) (uid : String) : MemoryStore :=
  s

/-!
## MongoStore (src/src/adapters/MongoStore.ts)

Documents `{_id, data, userId, expiresAt}` keyed by `_id`.  `userId` is the
`id` property of the JSON-parsed payload: `Option.none` models both a
payload without an `id` property (the field is set from `undefined`) and a
payload that failed to parse in the guarded version; a `find({userId})` /
`deleteMany({userId})` query for a string matches only documents whose
stored `userId` is that string.
-/

structure MongoDoc where
  data : String
  userId : Option Json
  expiresAt : Nat

structure MongoStore where
  docs : List (String × MongoDoc)

def MongoStore.empty : MongoStore := ⟨[]⟩

/-- `{userId: uid}` query match against a stored `userId` field. -/
def mongoUserMatch (stored : Option Json) (uid : String) : Bool :=
  match stored with
  | some (.str x) => x = uid
  | _ => false

/-- Adapters-file `set`: `JSON.parse` is wrapped in try/catch (`parsed`
falls back to `{}`), then `parsed.id` is read (throwing when `parsed` is
`null`) and the document is upserted. -/
def MongoStore.set (s : MongoStore) (now : Nat) (key value : String)
    (ttlSeconds : Nat) : Except Unit MongoStore :=
  let parsed : Json := (Json.parse value).getD (.obj [])
  match jsMember parsed "id" with
  | .error e => .error e
  | .ok uid =>
    .ok ⟨aset s.docs key ⟨value, uid, now + ttlSeconds * 1000⟩⟩

/-- `delete(key)`. -/
def MongoStore.delete (s : MongoStore) (key : String) : MongoStore :=
  ⟨aerase s.docs key⟩

/-- `get(key)`: absent → null; `new Date() > doc.expiresAt` → eager delete
and null; otherwise `doc.data`. -/
def MongoStore.get (s : MongoStore) (now : Nat) (key : String) :
    Option String × MongoStore :=
  match alookup s.docs key with
  | none => (none, s)
  | some doc =>
    if now > doc.expiresAt then (none, s.delete key)
    else (some doc.data, s)

/-- `touch(key, ttlSeconds)`: `updateOne` with no upsert sets only
`expiresAt` on the existing document, if any. -/
def MongoStore.touch (s : MongoStore) (now : Nat) (key : String)
    (ttlSeconds : Nat) : MongoStore :=
  ⟨aupdate s.docs key (fun d => ⟨d.data, d.userId, now + ttlSeconds * 1000⟩)⟩

/-- `findAllByUser(userId)`: `find({userId})`, then `doc.data` of every
match (no expiry filter).  The cursor-vs-array branch of the adapters file
collapses under the array semantics of the model. -/
def MongoStore.findAllByUser (s : MongoStore) (uid : String) : List String :=
  (s.docs.filter (fun p => mongoUserMatch p.2.userId uid)).map (fun p => p.2.data)

/-- `deleteByUser(userId)`: `deleteMany({userId})`. -/
def MongoStore.deleteByUser (s : MongoStore) (uid : String) : MongoStore :=
  ⟨s.docs.filter (fun p => ¬ mongoUserMatch p.2.userId uid)⟩

/-!
### MongoStore, embedded copy (src/unnamed/part_003, lines 55–123)

The older copy of the class embedded alongside the gatekeeper.  Its `set`
calls `JSON.parse(value)` unguarded (a parse failure throws out of `set`);
the remaining methods are textually identical to the adapters file, except
`findAllByUser`, which awaits `this.model.find({userId})` directly — under
the claim's hypothesis that `find` yields an array of documents this is the
same document list the adapters version maps over.
-/

namespace MongoE

/-- Embedded-copy `set` (unguarded `JSON.parse`). -/
def set (s : MongoStore) (now : Nat) (key value : String)
    (ttlSeconds : Nat) : Except Unit MongoStore :=
  match Json.parse value with
  | none => .error ()
  | some parsed =>
    match jsMember parsed "id" with
    | .error e => .error e
    | .ok uid =>
      .ok ⟨aset s.docs key ⟨value, uid, now + ttlSeconds * 1000⟩⟩

/-- Embedded-copy `get` (textually identical to the adapters file). -/
def get (s : MongoStore) (now : Nat) (key : String) :
    Option String × MongoStore :=
  match alookup s.docs key with
  | none => (none, s)
  | some doc =>
    if now > doc.expiresAt then (none, ⟨aerase s.docs key⟩)
    else (some doc.data, s)

/-- Embedded-copy `touch` (textually identical). -/
def touch (s : MongoStore) (now : Nat) (key : String)
    (ttlSeconds : Nat) : MongoStore :=
  ⟨aupdate s.docs key (fun d => ⟨d.data, d.userId, now + ttlSeconds * 1000⟩)⟩

/-- Embedded-copy `delete` (textually identical). -/
def delete (s : MongoStore) (key : String) : MongoStore :=
  ⟨aerase s.docs key⟩

/-- Embedded-copy `findAllByUser`: `(await find({userId})).map(doc => doc.data)`. -/
def findAllByUser (s : MongoStore) (uid : String) : List String :=
  (s.docs.filter (fun p => mongoUserMatch p.2.userId uid)).map (fun p => p.2.data)

/-- Embedded-copy `deleteByUser` (textually identical). -/
def deleteByUser (s : MongoStore) (uid : String) : MongoStore :=
  ⟨s.docs.filter (fun p => ¬ mongoUserMatch p.2.userId uid)⟩

end MongoE

/-!
## PostgresStore (src/unnamed/part_004)

Rows `(sid PRIMARY KEY, sess JSONB, user_id, expired_at)` keyed by `sid`.
The constructor validates the table name against `/^[a-zA-Z_]+$/` and
throws `Error('Invalid table name')` otherwise; no other method looks at
the table name again (it is only interpolated into the SQL text).  `sess`
holds the JSON value inserted by `set`; `get` returns
`JSON.stringify(sess)`.  The pool is modelled as the table contents.
-/

structure PgRow where
  sess : Json
  user_id : Option Json
  expired_at : Nat

structure PostgresStore where
  table : String
  rows : List (String × PgRow)

/-- The constructor's `/^[a-zA-Z_]+$/.test(tableName)`: at least one
character, all of them ASCII letters or underscore. -/
def validTableName (t : String) : Bool :=
  t ≠ "" && t.data.all (fun c => c.isAlpha || c = '_')

/-- `new PostgresStore(pool, tableName)`: throws on an invalid table name,
otherwise yields a store over the (initially empty) table. -/
def PostgresStore.create (tableName : String) : Except String PostgresStore :=
  if validTableName tableName then .ok ⟨tableName, []⟩
  else .error "Invalid table name"

/-- `set(key, value, ttlSeconds)`: `JSON.parse(value)` (throws on failure),
`parsed.id` (throws when `parsed` is `null`), then
`INSERT ... ON CONFLICT (sid) DO UPDATE` with
`(key, parsed, parsed.id, now + ttl*1000)`. -/
def PostgresStore.set (s : PostgresStore) (now : Nat) (key value : String)
    (ttlSeconds : Nat) : Except Unit PostgresStore :=
  match Json.parse value with
  | none => .error ()
  | some parsed =>
    match jsMember parsed "id" with
    | .error e => .error e
    | .ok uid =>
      .ok ⟨s.table, aset s.rows key ⟨parsed, uid, now + ttlSeconds * 1000⟩⟩

/-- `delete(key)`. -/
def PostgresStore.delete (s : PostgresStore) (key : String) : PostgresStore :=
  ⟨s.table, aerase s.rows key⟩

/-- `get(key)`: no row → null; `new Date() > expired_at` → lazy cleanup via
`delete` and null; otherwise `JSON.stringify(sess)`. -/
def PostgresStore.get (s : PostgresStore) (now : Nat) (key : String) :
    Option String × PostgresStore :=
  match alookup s.rows key with
  | none => (none, s)
  | some row =>
    if now > row.expired_at then (none, s.delete key)
    else (some row.sess.stringify, s)

/-- `touch(key, ttlSeconds)`: `UPDATE ... SET expired_at = $1 WHERE sid = $2`
(no row created when absent). -/
def PostgresStore.touch (s : PostgresStore) (now : Nat) (key : String)
    (ttlSeconds : Nat) : PostgresStore :=
  ⟨s.table, aupdate s.rows key
    (fun r => ⟨r.sess, r.user_id, now + ttlSeconds * 1000⟩)⟩

/-- `user_id = $1` for a string parameter: only a stored text value equal to
the parameter matches (a SQL `NULL` never does). -/
def pgUserMatch (stored : Option Json) (uid : String) : Bool :=
  match stored with
  | some (.str x) => x = uid
  | _ => false

/-- `findAllByUser(userId)`: rows with `user_id = $1 AND expired_at > NOW()`,
each returned as `JSON.stringify(row.sess)`. -/
def PostgresStore.findAllByUser (s : PostgresStore) (now : Nat)
    (uid : String) : List String :=
  (s.rows.filter (fun p => pgUserMatch p.2.user_id uid && p.2.expired_at > now)).map
    (fun p => p.2.sess.stringify)

/-- `deleteByUser(userId)`: `DELETE ... WHERE user_id = $1`. -/
def PostgresStore.deleteByUser (s : PostgresStore) (uid : String) :
    PostgresStore :=
  ⟨s.table, s.rows.filter (fun p => ¬ pgUserMatch p.2.user_id uid)⟩

/-!
## gatekeeper (src/unnamed/part_003, lines 4–43)

The Express middleware.  A request is modelled by its (optional)
Authorization header; `auth.authorize` is a parameter returning either a
result `{valid, user, sessionId, token?}` or `Except.error` for a thrown
exception (caught by the middleware's `catch`).  The middleware's outcome
is either a denial `res.status(st).json({error: body})` — modelled by the
status and the error string — or a pass to the downstream handler
(`next()`), carrying the response headers set beforehand.
-/

structure AuthResult where
  valid : Bool
  user : Json
  sessionId : String
  token : Option String

inductive GateResponse where
  | deny (status : Nat) (body : String)
  | next (headers : List (String × String))
deriving DecidableEq

/-- JS truthiness of a `string | undefined`: `undefined` and `""` are
falsy. -/
def truthy : Option String → Bool
  | none => false
  | some s => s ≠ ""

/-- JS `String.prototype.split(' ')`: split at every single space, keeping
empty pieces; the empty string splits to `[""]`. -/
def splitSpaceGo : List Char → String → List String
  | [], acc => [acc]
  | c :: cs, acc =>
    if c = ' ' then acc :: splitSpaceGo cs ""
    else splitSpaceGo cs (acc.push c)

def jsSplitSpace (s : String) : List String :=
  splitSpaceGo s.data ""

/-- The middleware body.  `authHeader.split(' ')` destructures into the
scheme and the second part (further parts are ignored); the header itself
and the extracted token are tested for truthiness exactly as the source's
`if (!authHeader)` and `if (scheme !== 'Bearer' || !token)` do. -/
def gatekeeper (authorize : String → Except Unit AuthResult)
    (authHeader : Option String) : GateResponse :=
  if ¬ truthy authHeader then .deny 401 "Authorization header missing"
  else if (jsSplitSpace (authHeader.getD "")).head? ≠ some "Bearer"
      || ¬ truthy ((jsSplitSpace (authHeader.getD "")).get? 1) then
    .deny 401 "Invalid authorization format"
  else
    match authorize (((jsSplitSpace (authHeader.getD "")).get? 1).getD "") with
    | .error _ => .deny 500 "Authentication failed"
    | .ok result =>
      if ¬ result.valid then .deny 401 "Invalid or expired session"
      else
        .next (if truthy result.token then
            [("X-Ace-Token", result.token.getD ""),
             ("Access-Control-Expose-Headers", "X-Ace-Token")]
          else [])

/-!
## Association-list lemmas
-/

theorem alookup_map_repl_ne {α : Type} (l : List (String × α)) (k k' : String)
    (v : α) (h : k' ≠ k) :
    alookup (l.map (fun p => if p.1 = k then (k, v) else p)) k' = alookup l k' := by
  induction l with
  | nil => rfl
  | cons p t ih =>
    obtain ⟨a, b⟩ := p
    by_cases ha : a = k
    · subst ha
      simp only [List.map_cons]
      rw [if_pos trivial]
      rw [alookup, if_neg h, alookup, if_neg h]
      exact ih
    · simp only [List.map_cons]
      rw [if_neg (show ¬ (a, b).1 = k from ha)]
      by_cases hka : k' = a
      · rw [alookup, if_pos hka, alookup, if_pos hka]
      · rw [alookup, if_neg hka, alookup, if_neg hka]
        exact ih

theorem alookup_map_repl_self {α : Type} (l : List (String × α)) (k : String)
    (v : α) (h : (alookup l k).isSome) :
    alookup (l.map (fun p => if p.1 = k then (k, v) else p)) k = some v := by
  induction l with
  | nil => simp [alookup] at h
  | cons p t ih =>
    obtain ⟨a, b⟩ := p
    by_cases ha : a = k
    · subst ha
      simp only [List.map_cons]
      rw [if_pos trivial]
      rw [alookup, if_pos rfl]
    · have hka : ¬ k = a := fun hh => ha hh.symm
      rw [alookup, if_neg hka] at h
      simp only [List.map_cons]
      rw [if_neg (show ¬ (a, b).1 = k from ha)]
      rw [alookup, if_neg hka]
      exact ih h

theorem alookup_append_one_ne {α : Type} (l : List (String × α)) (k k' : String)
    (v : α) (h : k' ≠ k) : alookup (l ++ [(k, v)]) k' = alookup l k' := by
  induction l with
  | nil => simp [alookup, if_neg h]
  | cons p t ih =>
    obtain ⟨a, b⟩ := p
    by_cases hka : k' = a
    · rw [List.cons_append, alookup, if_pos hka, alookup, if_pos hka]
    · rw [List.cons_append, alookup, if_neg hka, alookup, if_neg hka]
      exact ih

theorem alookup_append_one_self {α : Type} (l : List (String × α)) (k : String)
    (v : α) (h : alookup l k = none) : alookup (l ++ [(k, v)]) k = some v := by
  induction l with
  | nil => simp [alookup]
  | cons p t ih =>
    obtain ⟨a, b⟩ := p
    by_cases hka : k = a
    · rw [alookup, if_pos hka] at h
      exact absurd h (by simp)
    · rw [alookup, if_neg hka] at h
      rw [List.cons_append, alookup, if_neg hka]
      exact ih h

theorem alookup_aset_self {α : Type} (l : List (String × α)) (k : String)
    (v : α) : alookup (aset l k v) k = some v := by
  unfold aset
  split
  · rename_i hsome
    exact alookup_map_repl_self l k v hsome
  · rename_i hnone
    refine alookup_append_one_self l k v ?_
    cases hl : alookup l k with
    | none => rfl
    | some x => rw [hl] at hnone; simp at hnone

theorem alookup_aset_ne {α : Type} (l : List (String × α)) (k k' : String)
    (v : α) (h : k' ≠ k) : alookup (aset l k v) k' = alookup l k' := by
  unfold aset
  split
  · exact alookup_map_repl_ne l k k' v h
  · exact alookup_append_one_ne l k k' v h

theorem alookup_aerase_self {α : Type} (l : List (String × α)) (k : String) :
    alookup (aerase l k) k = none := by
  induction l with
  | nil => rfl
  | cons p t ih =>
    obtain ⟨a, b⟩ := p
    by_cases ha : a = k
    · subst ha
      simpa [aerase, List.filter_cons] using ih
    · have hka : ¬ k = a := fun hh => ha hh.symm
      unfold aerase at ih ⊢
      rw [List.filter_cons,
        if_pos (show (decide ¬((a, b).1 = k)) = true from by simp [ha]),
        alookup, if_neg hka]
      exact ih

theorem alookup_aerase_ne {α : Type} (l : List (String × α)) (k k' : String)
    (h : k' ≠ k) : alookup (aerase l k) k' = alookup l k' := by
  induction l with
  | nil => rfl
  | cons p t ih =>
    obtain ⟨a, b⟩ := p
    by_cases ha : a = k
    · subst ha
      have hka : ¬ k' = a := h
      unfold aerase at ih ⊢
      rw [List.filter_cons,
        if_neg (show ¬ (decide ¬((a, b).1 = a)) = true from by simp),
        alookup, if_neg hka]
      exact ih
    · unfold aerase at ih ⊢
      rw [List.filter_cons,
        if_pos (show (decide ¬((a, b).1 = k)) = true from by simp [ha])]
      by_cases hka : k' = a
      · rw [alookup, if_pos hka, alookup, if_pos hka]
      · rw [alookup, if_neg hka, alookup, if_neg hka]
        exact ih

theorem alookup_aupdate_self {α : Type} (l : List (String × α)) (k : String)
    (f : α → α) : alookup (aupdate l k f) k = (alookup l k).map f := by
  induction l with
  | nil => rfl
  | cons p t ih =>
    obtain ⟨a, b⟩ := p
    by_cases ha : a = k
    · subst ha
      simp only [aupdate, List.map_cons]
      rw [if_pos trivial, alookup, if_pos rfl, alookup, if_pos rfl]
      rfl
    · have hka : ¬ k = a := fun hh => ha hh.symm
      simp only [aupdate, List.map_cons] at ih ⊢
      rw [if_neg (show ¬ (a, b).1 = k from ha), alookup, if_neg hka,
        alookup, if_neg hka]
      exact ih

theorem alookup_aupdate_ne {α : Type} (l : List (String × α)) (k k' : String)
    (f : α → α) (h : k' ≠ k) : alookup (aupdate l k f) k' = alookup l k' := by
  induction l with
  | nil => rfl
  | cons p t ih =>
    obtain ⟨a, b⟩ := p
    by_cases ha : a = k
    · subst ha
      simp only [aupdate, List.map_cons] at ih ⊢
      rw [if_pos trivial, alookup, if_neg h, alookup, if_neg h]
      exact ih
    · simp only [aupdate, List.map_cons] at ih ⊢
      rw [if_neg (show ¬ (a, b).1 = k from ha)]
      by_cases hka : k' = a
      · rw [alookup, if_pos hka, alookup, if_pos hka]
      · rw [alookup, if_neg hka, alookup, if_neg hka]
        exact ih

/-- A key that is absent is untouched by `aupdate` (SQL `UPDATE ... WHERE`
matching no row, `updateOne` without upsert matching no document). -/
theorem aupdate_absent {α : Type} (l : List (String × α)) (k : String)
    (f : α → α) (h : alookup l k = none) : aupdate l k f = l := by
  induction l with
  | nil => rfl
  | cons p t ih =>
    obtain ⟨a, b⟩ := p
    by_cases hka : k = a
    · rw [alookup, if_pos hka] at h
      exact absurd h (by simp)
    · rw [alookup, if_neg hka] at h
      have ha : ¬ a = k := fun hh => hka hh.symm
      simp only [aupdate, List.map_cons] at ih ⊢
      rw [if_neg (show ¬ (a, b).1 = k from ha), ih h]

/-!
## The claims
-/

/-- **C3**: in every store implementation, a `get(key)` at a time strictly
later than the record's stored expiry returns none even though the record
is still physically present, and the call deletes the expired record from
the store. -/
theorem get_expired_returns_none_and_reclaims (now : Nat) (key : String) :
    (∀ (s : MemoryStore) (r : MemRecord), alookup s.cache key = some r →
        now > r.expiresAt → s.get now key = (none, s.delete key))
  ∧ (∀ (s : MongoStore) (d : MongoDoc), alookup s.docs key = some d →
        now > d.expiresAt → s.get now key = (none, s.delete key))
  ∧ (∀ (s : PostgresStore) (r : PgRow), alookup s.rows key = some r →
        now > r.expired_at → s.get now key = (none, s.delete key)) := by
  refine ⟨fun s r hr hx => ?_, fun s d hd hx => ?_, fun s r hr hx => ?_⟩
  · simp [MemoryStore.get, hr, hx]
  · simp [MongoStore.get, hd, hx]
  · simp [PostgresStore.get, hr, hx]

/-- Witness for C3: in each store a record that expired at 5ms, read at
10ms, yields none and is physically removed. -/
theorem get_expired_returns_none_and_reclaims_witness :
    (MemoryStore.mk [("k", ⟨"v", 5⟩)]).get 10 "k"
        = (none, (MemoryStore.mk [("k", ⟨"v", 5⟩)]).delete "k")
  ∧ (MongoStore.mk [("k", ⟨"v", none, 5⟩)]).get 10 "k"
        = (none, (MongoStore.mk [("k", ⟨"v", none, 5⟩)]).delete "k")
  ∧ (PostgresStore.mk "auth_sessions" [("k", ⟨.null, none, 5⟩)]).get 10 "k"
        = (none, (PostgresStore.mk "auth_sessions" [("k", ⟨.null, none, 5⟩)]).delete "k") :=
  ⟨(get_expired_returns_none_and_reclaims 10 "k").1 _ _ rfl (by decide),
   (get_expired_returns_none_and_reclaims 10 "k").2.1 _ _ rfl (by decide),
   (get_expired_returns_none_and_reclaims 10 "k").2.2 _ _ rfl (by decide)⟩

/-- **C9**: in every store implementation the expiry boundary is inclusive:
for a physically present record, `get` returns the stored payload (and
leaves the store unchanged) exactly when the current time is less than or
equal to the stored expiry — in particular a record whose expiry equals the
current instant is still returned and not reclaimed, and a record is
treated as expired only when the current time is strictly greater. -/
theorem get_expiry_boundary_inclusive (now : Nat) (key : String) :
    (∀ (s : MemoryStore) (r : MemRecord), alookup s.cache key = some r →
        (s.get now key = (some r.value, s) ↔ now ≤ r.expiresAt))
  ∧ (∀ (s : MongoStore) (d : MongoDoc), alookup s.docs key = some d →
        (s.get now key = (some d.data, s) ↔ now ≤ d.expiresAt))
  ∧ (∀ (s : PostgresStore) (r : PgRow), alookup s.rows key = some r →
        (s.get now key = (some r.sess.stringify, s) ↔ now ≤ r.expired_at)) := by
  refine ⟨fun s r hr => ?_, fun s d hd => ?_, fun s r hr => ?_⟩
  · simp only [MemoryStore.get, hr]
    by_cases hx : now > r.expiresAt
    · rw [if_pos hx]
      constructor
      · intro h
        exact absurd (congrArg Prod.fst h) (by simp)
      · intro h
        exact absurd hx (Nat.not_lt.mpr h)
    · rw [if_neg hx]
      exact iff_of_true rfl (Nat.not_lt.mp hx)
  · simp only [MongoStore.get, hd]
    by_cases hx : now > d.expiresAt
    · rw [if_pos hx]
      constructor
      · intro h
        exact absurd (congrArg Prod.fst h) (by simp)
      · intro h
        exact absurd hx (Nat.not_lt.mpr h)
    · rw [if_neg hx]
      exact iff_of_true rfl (Nat.not_lt.mp hx)
  · simp only [PostgresStore.get, hr]
    by_cases hx : now > r.expired_at
    · rw [if_pos hx]
      constructor
      · intro h
        exact absurd (congrArg Prod.fst h) (by simp)
      · intro h
        exact absurd hx (Nat.not_lt.mpr h)
    · rw [if_neg hx]
      exact iff_of_true rfl (Nat.not_lt.mp hx)

/-- Witness for C9: a record whose expiry equals the current instant (both
10ms) is returned by each store's `get`, with the store unchanged. -/
theorem get_expiry_boundary_inclusive_witness :
    (MemoryStore.mk [("k", ⟨"v", 10⟩)]).get 10 "k"
        = (some "v", MemoryStore.mk [("k", ⟨"v", 10⟩)])
  ∧ (MongoStore.mk [("k", ⟨"v", none, 10⟩)]).get 10 "k"
        = (some "v", MongoStore.mk [("k", ⟨"v", none, 10⟩)])
  ∧ (PostgresStore.mk "auth_sessions" [("k", ⟨.null, none, 10⟩)]).get 10 "k"
        = (some "null", PostgresStore.mk "auth_sessions" [("k", ⟨.null, none, 10⟩)]) :=
  ⟨((get_expiry_boundary_inclusive 10 "k").1
      (MemoryStore.mk [("k", ⟨"v", 10⟩)]) ⟨"v", 10⟩ rfl).mpr (by decide),
   ((get_expiry_boundary_inclusive 10 "k").2.1
      (MongoStore.mk [("k", ⟨"v", none, 10⟩)]) ⟨"v", none, 10⟩ rfl).mpr (by decide),
   ((get_expiry_boundary_inclusive 10 "k").2.2
      (PostgresStore.mk "auth_sessions" [("k", ⟨.null, none, 10⟩)]) ⟨.null, none, 10⟩ rfl).mpr (by decide)⟩

/-- **C6**: in every store implementation, `touch(key, ttlSeconds)` changes
only the stored expiry of the record at `key`: when the key is absent the
store is entirely unchanged (no record is created), and when it is present
the payload at `key` (and, where stored, the owner) is preserved with only
the expiry replaced by `now + ttl·1000`, while every other key's record is
untouched. -/
theorem touch_changes_only_expiry (now : Nat) (key : String) (ttl : Nat) :
    (∀ (s : MemoryStore),
        (alookup s.cache key = none → s.touch now key ttl = s)
      ∧ (∀ r, alookup s.cache key = some r →
          alookup (s.touch now key ttl).cache key
              = some ⟨r.value, now + ttl * 1000⟩
          ∧ ∀ k', k' ≠ key →
              alookup (s.touch now key ttl).cache k' = alookup s.cache k'))
  ∧ (∀ (s : MongoStore),
        (alookup s.docs key = none → s.touch now key ttl = s)
      ∧ (∀ d, alookup s.docs key = some d →
          alookup (s.touch now key ttl).docs key
              = some ⟨d.data, d.userId, now + ttl * 1000⟩
          ∧ ∀ k', k' ≠ key →
              alookup (s.touch now key ttl).docs k' = alookup s.docs k'))
  ∧ (∀ (s : PostgresStore),
        (alookup s.rows key = none → s.touch now key ttl = s)
      ∧ (∀ r, alookup s.rows key = some r →
          alookup (s.touch now key ttl).rows key
              = some ⟨r.sess, r.user_id, now + ttl * 1000⟩
          ∧ ∀ k', k' ≠ key →
              alookup (s.touch now key ttl).rows k' = alookup s.rows k')) := by
  refine ⟨fun s => ⟨fun h => ?_, fun r hr => ⟨?_, fun k' hk' => ?_⟩⟩,
          fun s => ⟨fun h => ?_, fun d hd => ⟨?_, fun k' hk' => ?_⟩⟩,
          fun s => ⟨fun h => ?_, fun r hr => ⟨?_, fun k' hk' => ?_⟩⟩⟩
  · simp [MemoryStore.touch, h]
  · simp only [MemoryStore.touch, hr, MemoryStore.set]
    exact alookup_aset_self _ _ _
  · simp only [MemoryStore.touch, hr, MemoryStore.set]
    exact alookup_aset_ne _ _ _ _ hk'
  · simp only [MongoStore.touch]
    rw [aupdate_absent _ _ _ h]
  · simp only [MongoStore.touch]
    rw [alookup_aupdate_self, hd]
    rfl
  · simp only [MongoStore.touch]
    exact alookup_aupdate_ne _ _ _ _ hk'
  · simp only [PostgresStore.touch]
    rw [aupdate_absent _ _ _ h]
  · simp only [PostgresStore.touch]
    rw [alookup_aupdate_self, hr]
    rfl
  · simp only [PostgresStore.touch]
    exact alookup_aupdate_ne _ _ _ _ hk'

/-- Witness for C6: touching a present key rewrites only its expiry
(payload and other keys intact), and touching an absent key changes
nothing, in each store. -/
theorem touch_changes_only_expiry_witness :
    alookup ((MemoryStore.mk [("k", ⟨"v", 5⟩), ("o", ⟨"w", 7⟩)]).touch 100 "k" 1).cache "k" = some ⟨"v", 100 + 1 * 1000⟩
  ∧ alookup ((MemoryStore.mk [("k", ⟨"v", 5⟩), ("o", ⟨"w", 7⟩)]).touch 100 "k" 1).cache "o" = alookup (MemoryStore.mk [("k", ⟨"v", 5⟩), ("o", ⟨"w", 7⟩)]).cache "o"
  ∧ (MemoryStore.mk [("o", ⟨"w", 7⟩)]).touch 100 "k" 1 = MemoryStore.mk [("o", ⟨"w", 7⟩)]
  ∧ alookup ((MongoStore.mk [("k", ⟨"v", none, 5⟩)]).touch 100 "k" 1).docs "k" = some ⟨"v", none, 100 + 1 * 1000⟩
  ∧ (MongoStore.mk [("o", ⟨"w", none, 7⟩)]).touch 100 "k" 1 = MongoStore.mk [("o", ⟨"w", none, 7⟩)]
  ∧ alookup ((PostgresStore.mk "t" [("k", ⟨.null, none, 5⟩)]).touch 100 "k" 1).rows "k" = some ⟨.null, none, 100 + 1 * 1000⟩
  ∧ (PostgresStore.mk "t" [("o", ⟨.null, none, 7⟩)]).touch 100 "k" 1 = PostgresStore.mk "t" [("o", ⟨.null, none, 7⟩)] :=
  ⟨(((touch_changes_only_expiry 100 "k" 1).1
      (MemoryStore.mk [("k", ⟨"v", 5⟩), ("o", ⟨"w", 7⟩)])).2 ⟨"v", 5⟩ rfl).1,
   (((touch_changes_only_expiry 100 "k" 1).1
      (MemoryStore.mk [("k", ⟨"v", 5⟩), ("o", ⟨"w", 7⟩)])).2 ⟨"v", 5⟩ rfl).2 "o" (by decide),
   ((touch_changes_only_expiry 100 "k" 1).1 (MemoryStore.mk [("o", ⟨"w", 7⟩)])).1 rfl,
   (((touch_changes_only_expiry 100 "k" 1).2.1
      (MongoStore.mk [("k", ⟨"v", none, 5⟩)])).2 ⟨"v", none, 5⟩ rfl).1,
   ((touch_changes_only_expiry 100 "k" 1).2.1 (MongoStore.mk [("o", ⟨"w", none, 7⟩)])).1 rfl,
   (((touch_changes_only_expiry 100 "k" 1).2.2
      (PostgresStore.mk "t" [("k", ⟨.null, none, 5⟩)])).2 ⟨.null, none, 5⟩ rfl).1,
   ((touch_changes_only_expiry 100 "k" 1).2.2 (PostgresStore.mk "t" [("o", ⟨.null, none, 7⟩)])).1 rfl⟩

/-- Soundness of the `findAllByUser` scan: on a non-throwing run, every
returned string is the stored value of a physically present record whose
parsed payload's `id` or `_id` property is the queried user id. -/
theorem findAllByUserGo_spec (uid : String) (l : List (String × MemRecord))
    (res : List String) (h : MemoryStore.findAllByUserGo uid l = .ok res) :
    ∀ x ∈ res, ∃ p, p ∈ l ∧ x = p.2.value ∧ memUserMatches uid p.2.value = true := by
  induction l generalizing res with
  | nil =>
    simp only [MemoryStore.findAllByUserGo] at h
    cases h
    intro x hx
    simp at hx
  | cons q t ih =>
    obtain ⟨k, item⟩ := q
    intro x hx
    simp only [MemoryStore.findAllByUserGo] at h
    cases hp : Json.parse item.value with
    | none =>
      rw [hp] at h
      obtain ⟨p, hpl, hrest⟩ := ih res h x hx
      exact ⟨p, List.mem_cons_of_mem _ hpl, hrest⟩
    | some user =>
      rw [hp] at h
      dsimp only at h
      cases h1 : jsMember user "id" with
      | error e =>
        rw [h1] at h
        exact absurd h (by simp)
      | ok idv =>
        rw [h1] at h
        cases h2 : jsMember user "_id" with
        | error e =>
          rw [h2] at h
          exact absurd h (by simp)
        | ok idv2 =>
          rw [h2] at h
          dsimp only at h
          by_cases hc : (strEqOpt idv uid || strEqOpt idv2 uid) = true
          · rw [if_pos hc] at h
            cases hgo : MemoryStore.findAllByUserGo uid t with
            | error e =>
              rw [hgo] at h
              exact absurd h (by simp)
            | ok lt =>
              rw [hgo] at h
              have hres : res = item.value :: lt := by
                cases h
                rfl
              subst hres
              cases hx with
              | head =>
                refine ⟨(k, item), List.mem_cons_self _ _, rfl, ?_⟩
                unfold memUserMatches
                rw [hp]
                dsimp only
                rw [h1, h2]
                exact hc
              | tail _ hx' =>
                obtain ⟨p, hpl, hrest⟩ := ih lt hgo x hx'
                exact ⟨p, List.mem_cons_of_mem _ hpl, hrest⟩
          · rw [if_neg hc] at h
            obtain ⟨p, hpl, hrest⟩ := ih res h x hx
            exact ⟨p, List.mem_cons_of_mem _ hpl, hrest⟩

/-- **C1** (evidence of the code bug): `MemoryStore.deleteByUser` has an
empty body ("Implementation omitted for benchmark speed"), so after
`set("s1", session-of-u1, 100)` followed by `deleteByUser("u1")`, the
session is still listed by `findAllByUser("u1")` and still readable by
`get("s1")` — contradicting the store contract that `deleteByUser` removes
every session owned by the user. -/
theorem memoryStore_deleteByUser_leaves_sessions :
    ((MemoryStore.empty.set 0 "s1" "\x7b\"id\":\"u1\"\x7d" 100).deleteByUser
        "u1").findAllByUser "u1" = .ok ["\x7b\"id\":\"u1\"\x7d"]
  ∧ (((MemoryStore.empty.set 0 "s1" "\x7b\"id\":\"u1\"\x7d" 100).deleteByUser
        "u1").get 0 "s1").1 = some "\x7b\"id\":\"u1\"\x7d" :=
  ⟨rfl, rfl⟩

/-- **C2** (counterexample): `MongoStore.findAllByUser` applies no expiry
filter: a session stored at t=0 with a 1-second ttl (stored expiry 1000ms)
is already treated as expired by `get` at t=5000 — yet `findAllByUser`
(whose result does not depend on the clock at all) still lists it. -/
theorem mongoStore_findAllByUser_includes_expired :
    (MongoStore.empty.set 0 "s1" "\x7b\"id\":\"u1\"\x7d" 1).map
        (fun s => (s.findAllByUser "u1", (s.get 5000 "s1").1))
      = .ok (["\x7b\"id\":\"u1\"\x7d"], none) := rfl

/-- **C2** (amended): every element returned by `findAllByUser(u)` is the
payload of a record physically present in the store and owned by `u` — so
deleted sessions never appear; `PostgresStore` additionally excludes
records whose stored expiry has passed (`expired_at > NOW()`), while
`MongoStore` and `MemoryStore` apply no expiry filter and may also return
expired-but-unreclaimed records. -/
theorem findAllByUser_owned_and_present :
    (∀ (s : PostgresStore) (now : Nat) (uid x : String),
        x ∈ s.findAllByUser now uid →
        ∃ p, p ∈ s.rows ∧ pgUserMatch p.2.user_id uid = true
          ∧ p.2.expired_at > now ∧ x = p.2.sess.stringify)
  ∧ (∀ (s : MongoStore) (uid x : String),
        x ∈ s.findAllByUser uid →
        ∃ p, p ∈ s.docs ∧ mongoUserMatch p.2.userId uid = true ∧ x = p.2.data)
  ∧ (∀ (s : MemoryStore) (uid : String) (res : List String),
        s.findAllByUser uid = .ok res → ∀ x ∈ res,
        ∃ p, p ∈ s.cache ∧ x = p.2.value
          ∧ memUserMatches uid p.2.value = true) := by
  refine ⟨fun s now uid x hx => ?_, fun s uid x hx => ?_,
    fun s uid res h => findAllByUserGo_spec uid s.cache res h⟩
  · unfold PostgresStore.findAllByUser at hx
    obtain ⟨p, hpf, hpx⟩ := List.mem_map.mp hx
    have hpm := List.mem_filter.mp hpf
    refine ⟨p, hpm.1, ?_, ?_, hpx.symm⟩
    · exact (Bool.and_eq_true _ _ |>.mp hpm.2).1
    · have := (Bool.and_eq_true _ _ |>.mp hpm.2).2
      exact of_decide_eq_true this
  · unfold MongoStore.findAllByUser at hx
    obtain ⟨p, hpf, hpx⟩ := List.mem_map.mp hx
    have hpm := List.mem_filter.mp hpf
    exact ⟨p, hpm.1, hpm.2, hpx.symm⟩

/-- Witness for the amended C2: concrete one-record stores for each
adapter, with the returned element traced back to its record. -/
theorem findAllByUser_owned_and_present_witness :
    (∃ p, p ∈ [("k", (⟨.null, some (.str "u1"), 99⟩ : PgRow))]
        ∧ pgUserMatch p.2.user_id "u1" = true ∧ p.2.expired_at > 5
        ∧ "null" = p.2.sess.stringify)
  ∧ (∃ p, p ∈ [("k", (⟨"d", some (.str "u1"), 99⟩ : MongoDoc))]
        ∧ mongoUserMatch p.2.userId "u1" = true ∧ "d" = p.2.data)
  ∧ (∃ p, p ∈ [("k", (⟨"\x7b\"id\":\"u1\"\x7d", 99⟩ : MemRecord))]
        ∧ "\x7b\"id\":\"u1\"\x7d" = p.2.value
        ∧ memUserMatches "u1" p.2.value = true) :=
  ⟨findAllByUser_owned_and_present.1
      (PostgresStore.mk "t" [("k", ⟨.null, some (.str "u1"), 99⟩)]) 5 "u1" "null"
      (by constructor),
   findAllByUser_owned_and_present.2.1
      (MongoStore.mk [("k", ⟨"d", some (.str "u1"), 99⟩)]) "u1" "d"
      (by constructor),
   findAllByUser_owned_and_present.2.2
      (MemoryStore.mk [("k", ⟨"\x7b\"id\":\"u1\"\x7d", 99⟩)]) "u1"
      ["\x7b\"id\":\"u1\"\x7d"] rfl "\x7b\"id\":\"u1\"\x7d"
      (by constructor)⟩

/-- **C5** (counterexample): `PostgresStore.get` returns
`JSON.stringify(sess)`, a re-serialisation of the parsed payload, not the
stored string itself: setting the value with a space after the colon and
reading it back (well within the ttl, with no intervening operation) yields
the canonical serialisation, which differs character-for-character from the
value that was set. -/
theorem postgres_get_not_identity :
    ((PostgresStore.mk "auth_sessions" []).set 0 "k" "\x7b\"id\": \"u1\"\x7d" 10).map
        (fun s => (s.get 1 "k").1)
      = .ok (some "\x7b\"id\":\"u1\"\x7d")
  ∧ "\x7b\"id\":\"u1\"\x7d" ≠ "\x7b\"id\": \"u1\"\x7d" :=
  ⟨rfl, by decide⟩

/-- **C5** (amended): within the ttl and with no intervening operation,
`MemoryStore` returns exactly the string that was set; `MongoStore` returns
exactly that string whenever its `set` did not throw; `PostgresStore`
returns the JSON re-serialisation `stringify(parse v)` of the value, which
equals `v` only when `v` is already in canonical serialised form. -/
theorem set_get_roundtrip_amended :
    (∀ (s : MemoryStore) (now now' ttl : Nat) (k v : String),
        now' ≤ now + ttl * 1000 →
        ((s.set now k v ttl).get now' k).1 = some v)
  ∧ (∀ (s s' : MongoStore) (now now' ttl : Nat) (k v : String),
        s.set now k v ttl = .ok s' → now' ≤ now + ttl * 1000 →
        (s'.get now' k).1 = some v)
  ∧ (∀ (s s' : PostgresStore) (now now' ttl : Nat) (k v : String) (j : Json),
        Json.parse v = some j → s.set now k v ttl = .ok s' →
        now' ≤ now + ttl * 1000 →
        (s'.get now' k).1 = some j.stringify) := by
  refine ⟨fun s now now' ttl k v hle => ?_,
    fun s s' now now' ttl k v hset hle => ?_,
    fun s s' now now' ttl k v j hj hset hle => ?_⟩
  · simp only [MemoryStore.set, MemoryStore.get]
    rw [alookup_aset_self]
    dsimp only
    rw [if_neg (Nat.not_lt.mpr hle)]
  · simp only [MongoStore.set] at hset
    cases hm : jsMember ((Json.parse v).getD (.obj [])) "id" with
    | error e =>
      rw [hm] at hset
      exact absurd hset (by simp)
    | ok uid =>
      rw [hm] at hset
      dsimp only at hset
      have hs' : s' = ⟨aset s.docs k ⟨v, uid, now + ttl * 1000⟩⟩ := by
        cases hset
        rfl
      subst hs'
      simp only [MongoStore.get]
      rw [alookup_aset_self]
      dsimp only
      rw [if_neg (Nat.not_lt.mpr hle)]
  · simp only [PostgresStore.set] at hset
    rw [hj] at hset
    dsimp only at hset
    cases hm : jsMember j "id" with
    | error e =>
      rw [hm] at hset
      exact absurd hset (by simp)
    | ok uid =>
      rw [hm] at hset
      dsimp only at hset
      have hs' : s' = ⟨s.table, aset s.rows k ⟨j, uid, now + ttl * 1000⟩⟩ := by
        cases hset
        rfl
      subst hs'
      simp only [PostgresStore.get]
      rw [alookup_aset_self]
      dsimp only
      rw [if_neg (Nat.not_lt.mpr hle)]

/-- Witness for the amended C5: a set at t=0 with a 1-second ttl read back
at t=500 returns the set string for MemoryStore and MongoStore, and the
canonical re-serialisation for PostgresStore. -/
theorem set_get_roundtrip_amended_witness :
    ((MemoryStore.empty.set 0 "k" "plain" 1).get 500 "k").1 = some "plain"
  ∧ ((MongoStore.mk [("k", ⟨"\x7b\"id\":\"u\"\x7d", some (.str "u"), 1000⟩)]).get
        500 "k").1 = some "\x7b\"id\":\"u\"\x7d"
  ∧ ((PostgresStore.mk "t" [("k", ⟨.obj [("id", .str "u")], some (.str "u"), 1000⟩)]).get
        500 "k").1 = some (Json.obj [("id", Json.str "u")]).stringify :=
  ⟨set_get_roundtrip_amended.1 MemoryStore.empty 0 500 1 "k" "plain" (by decide),
   set_get_roundtrip_amended.2.1 MongoStore.empty
      (MongoStore.mk [("k", ⟨"\x7b\"id\":\"u\"\x7d", some (.str "u"), 1000⟩)])
      0 500 1 "k" "\x7b\"id\":\"u\"\x7d" rfl (by decide),
   set_get_roundtrip_amended.2.2 (PostgresStore.mk "t" [])
      (PostgresStore.mk "t" [("k", ⟨.obj [("id", .str "u")], some (.str "u"), 1000⟩)])
      0 500 1 "k" "\x7b\"id\":\"u\"\x7d" (.obj [("id", .str "u")]) rfl rfl (by decide)⟩

/-- Evaluation of the middleware on a well-formed bearer request: with a
header that splits into `["Bearer", tok]` for a non-empty `tok`, the
outcome is determined by `authorize tok` alone. -/
theorem gatekeeper_eval (a : String → Except Unit AuthResult) (hdr tok : String)
    (hsplit : jsSplitSpace hdr = ["Bearer", tok]) (htok : tok ≠ "") :
    gatekeeper a (some hdr)
      = match a tok with
        | .error _ => .deny 500 "Authentication failed"
        | .ok r =>
          if ¬ r.valid then .deny 401 "Invalid or expired session"
          else .next (if truthy r.token then
              [("X-Ace-Token", r.token.getD ""),
               ("Access-Control-Expose-Headers", "X-Ace-Token")]
            else []) := by
  have hne : hdr ≠ "" := by
    intro he
    subst he
    rw [show jsSplitSpace "" = [""] from rfl] at hsplit
    exact absurd hsplit (by simp)
  have htr : truthy (some hdr) = true := by
    simpa [truthy] using hne
  unfold gatekeeper
  rw [if_neg (by simp [htr])]
  dsimp only [Option.getD]
  rw [hsplit]
  dsimp only [List.head?, List.get?]
  rw [if_neg (by simp [truthy, htok])]

/-- **C4** (counterexample): two denied requests with different causes get
distinguishable responses: a request with no Authorization header is
answered (401, "Authorization header missing") while a request whose
bearer credential `authorize` rejects is answered
(401, "Invalid or expired session") — same status, different bodies, so an
external observer can tell the causes apart. -/
theorem gatekeeper_denials_distinguishable :
    gatekeeper (fun _ => .ok ⟨false, .null, "", none⟩) none
      = .deny 401 "Authorization header missing"
  ∧ gatekeeper (fun _ => .ok ⟨false, .null, "", none⟩) (some "Bearer t")
      = .deny 401 "Invalid or expired session"
  ∧ ("Authorization header missing" : String) ≠ "Invalid or expired session" :=
  ⟨rfl, rfl, by decide⟩

/-- **C4** (amended): every denied request is answered with status 401,
except a thrown `authorize`, which the catch-all answers with
(500, "Authentication failed"); and every denial arising from `authorize`
returning `valid:false` is the identical (401, "Invalid or expired
session") response regardless of the underlying cause or anything else in
the result — but the missing-header and malformed-format denials carry
distinct bodies, so those causes remain distinguishable. -/
theorem gatekeeper_denied_uniform :
    (∀ (a : String → Except Unit AuthResult) (hdr : Option String)
        (st : Nat) (body : String), gatekeeper a hdr = .deny st body →
        st = 401 ∨ (st = 500 ∧ body = "Authentication failed"))
  ∧ (∀ (a : String → Except Unit AuthResult) (hdr tok : String)
        (r : AuthResult), jsSplitSpace hdr = ["Bearer", tok] → tok ≠ "" →
        a tok = .ok r → r.valid = false →
        gatekeeper a (some hdr) = .deny 401 "Invalid or expired session") := by
  constructor
  · intro a hdr st body h
    unfold gatekeeper at h
    split at h
    · cases h
      exact .inl rfl
    · split at h
      · cases h
        exact .inl rfl
      · split at h
        · cases h
          exact .inr ⟨rfl, rfl⟩
        · split at h
          · cases h
            exact .inl rfl
          · cases h
  · intro a hdr tok r hsplit htok ha hval
    rw [gatekeeper_eval a hdr tok hsplit htok, ha]
    dsimp only
    rw [if_pos (by simp [hval])]

/-- Witness for the amended C4: the missing-header denial has status 401;
a concrete `valid:false` result (whatever its other fields) yields the
generic unauthorized response. -/
theorem gatekeeper_denied_uniform_witness :
    ((401 : Nat) = 401
        ∨ ((401 : Nat) = 500 ∧ "Authorization header missing" = "Authentication failed"))
  ∧ gatekeeper (fun _ => .ok ⟨false, .bool true, "sid", some "t2"⟩) (some "Bearer abc")
      = .deny 401 "Invalid or expired session" :=
  ⟨gatekeeper_denied_uniform.1 (fun _ => .ok ⟨false, .null, "", none⟩) none 401
      "Authorization header missing" rfl,
   gatekeeper_denied_uniform.2 (fun _ => .ok ⟨false, .bool true, "sid", some "t2"⟩)
      "Bearer abc" "abc" ⟨false, .bool true, "sid", some "t2"⟩ rfl (by decide) rfl rfl⟩

/-- **C7**: whenever `authorize` accepts the bearer credential and its
result carries a rotated token, the middleware passes the request
downstream with the `X-Ace-Token` header set to that token and
`Access-Control-Expose-Headers` listing `X-Ace-Token`; when the valid
result carries no rotated token, it passes the request downstream with
neither header set. -/
theorem gatekeeper_rotated_token_header :
    ∀ (a : String → Except Unit AuthResult) (hdr tok : String) (r : AuthResult),
      jsSplitSpace hdr = ["Bearer", tok] → tok ≠ "" → a tok = .ok r →
      r.valid = true →
      (∀ t, r.token = some t → t ≠ "" →
        gatekeeper a (some hdr)
          = .next [("X-Ace-Token", t),
                   ("Access-Control-Expose-Headers", "X-Ace-Token")])
      ∧ (r.token = none → gatekeeper a (some hdr) = .next []) := by
  intro a hdr tok r hsplit htok ha hval
  constructor
  · intro t ht htne
    rw [gatekeeper_eval a hdr tok hsplit htok, ha]
    dsimp only
    rw [if_neg (by simp [hval]), ht]
    rw [if_pos (by simp [truthy, htne])]
    rfl
  · intro ht
    rw [gatekeeper_eval a hdr tok hsplit htok, ha]
    dsimp only
    rw [if_neg (by simp [hval]), ht]
    rw [if_neg (by simp [truthy])]

/-- Witness for C7: a concrete valid result with rotated token "T" sets
both headers; one with no token sets neither. -/
theorem gatekeeper_rotated_token_header_witness :
    gatekeeper (fun _ => .ok ⟨true, .null, "s", some "T"⟩) (some "Bearer abc")
      = .next [("X-Ace-Token", "T"), ("Access-Control-Expose-Headers", "X-Ace-Token")]
  ∧ gatekeeper (fun _ => .ok ⟨true, .null, "s", none⟩) (some "Bearer abc")
      = .next [] :=
  ⟨(gatekeeper_rotated_token_header _ "Bearer abc" "abc"
      ⟨true, .null, "s", some "T"⟩ rfl (by decide) rfl rfl).1 "T" rfl (by decide),
   (gatekeeper_rotated_token_header _ "Bearer abc" "abc"
      ⟨true, .null, "s", none⟩ rfl (by decide) rfl rfl).2 rfl⟩
/-- **C8** (counterexample): the empty table name contains no character
other than ASCII letters and underscore, yet construction still throws:
the source's validation regex `/^[a-zA-Z_]+$/` also requires the name to be
non-empty. -/
theorem postgres_empty_table_name_rejected :
    ("".data.all (fun c => c.isAlpha || c = '_')) = true
  ∧ PostgresStore.create "" = .error "Invalid table name" :=
  ⟨rfl, rfl⟩

/-- **C8** (amended): construction succeeds exactly for non-empty table
names all of whose characters are ASCII letters or underscore — a name
containing any other character, or the empty name, throws immediately at
construction time; and no per-request operation re-validates the name or
raises a configuration error: get, touch, delete, findAllByUser and
deleteByUser are total, and set can fail only on its payload (the
`JSON.parse`/`parsed.id` of the value), never on the table name. -/
theorem postgres_table_name_validation :
    (∀ t : String, (∃ st, PostgresStore.create t = .ok st) ↔
        (t ≠ "" ∧ ∀ c ∈ t.data, (c.isAlpha || c = '_') = true))
  ∧ (∀ (s : PostgresStore) (now ttl : Nat) (k v : String) (j : Json),
        Json.parse v = some j → j ≠ .null →
        ∃ s', s.set now k v ttl = .ok s') := by
  constructor
  · intro t
    unfold PostgresStore.create
    by_cases hv : validTableName t = true
    · rw [if_pos hv]
      unfold validTableName at hv
      have h1 := (Bool.and_eq_true _ _).mp hv
      refine iff_of_true ⟨_, rfl⟩ ⟨of_decide_eq_true h1.1, ?_⟩
      intro c hc
      exact List.all_eq_true.mp h1.2 c hc
    · rw [if_neg hv]
      refine iff_of_false ?_ ?_
      · rintro ⟨st, hst⟩
        exact absurd hst (by simp)
      · rintro ⟨hne, hall⟩
        refine hv ?_
        unfold validTableName
        refine (Bool.and_eq_true _ _).mpr ⟨decide_eq_true hne, ?_⟩
        exact List.all_eq_true.mpr hall
  · intro s now ttl k v j hj hnull
    unfold PostgresStore.set
    rw [hj]
    dsimp only
    cases hm : jsMember j "id" with
    | error e =>
      cases j with
      | null => exact absurd rfl hnull
      | bool b => simp [jsMember] at hm
      | num n => simp [jsMember] at hm
      | str x => simp [jsMember] at hm
      | arr xs => simp [jsMember] at hm
      | obj fs => simp [jsMember] at hm
    | ok uid => exact ⟨_, rfl⟩

/-- Witness for the amended C8: the default table name "auth_sessions"
constructs successfully, and a `set` with a JSON payload succeeds on the
resulting store. -/
theorem postgres_table_name_validation_witness :
    (∃ st, PostgresStore.create "auth_sessions" = .ok st)
  ∧ (∃ s', (PostgresStore.mk "auth_sessions" []).set 0 "k"
        "\x7b\"id\":\"u\"\x7d" 1 = .ok s') :=
  ⟨(postgres_table_name_validation.1 "auth_sessions").mpr
      ⟨by decide, by decide⟩,
   postgres_table_name_validation.2 (PostgresStore.mk "auth_sessions" []) 0 1
      "k" "\x7b\"id\":\"u\"\x7d" (.obj [("id", .str "u")]) rfl (by simp)⟩

/-- **C10**: under the claim's hypotheses — every value passed to `set`
parses as JSON, and `find` yields an array of documents (intrinsic to the
list-backed model, which collapses the adapters file's cursor/array
branch) — the MongoStore copy embedded in the gatekeeper file and the
adapters-file MongoStore are extensionally equal: each of set, get, touch,
delete, findAllByUser and deleteByUser returns the same result and leaves
the same store state in both versions. -/
theorem mongoStore_versions_agree :
    (∀ (s : MongoStore) (now ttl : Nat) (k v : String) (j : Json),
        Json.parse v = some j →
        MongoE.set s now k v ttl = s.set now k v ttl)
  ∧ (∀ (s : MongoStore) (now : Nat) (k : String),
        MongoE.get s now k = s.get now k)
  ∧ (∀ (s : MongoStore) (now ttl : Nat) (k : String),
        MongoE.touch s now k ttl = s.touch now k ttl)
  ∧ (∀ (s : MongoStore) (k : String), MongoE.delete s k = s.delete k)
  ∧ (∀ (s : MongoStore) (uid : String),
        MongoE.findAllByUser s uid = s.findAllByUser uid)
  ∧ (∀ (s : MongoStore) (uid : String),
        MongoE.deleteByUser s uid = s.deleteByUser uid) := by
  refine ⟨fun s now ttl k v j hj => ?_, fun s now k => rfl,
    fun s now ttl k => rfl, fun s k => rfl, fun s uid => rfl,
    fun s uid => rfl⟩
  simp only [MongoE.set, MongoStore.set, hj, Option.getD]

/-- Witness for C10: both versions of `set`, applied to the empty store
and a JSON payload, produce identical stores. -/
theorem mongoStore_versions_agree_witness :
    MongoE.set MongoStore.empty 0 "k" "\x7b\"id\":\"u\"\x7d" 1
      = MongoStore.empty.set 0 "k" "\x7b\"id\":\"u\"\x7d" 1 :=
  mongoStore_versions_agree.1 MongoStore.empty 0 1 "k"
    "\x7b\"id\":\"u\"\x7d" (.obj [("id", .str "u")]) rfl

end AceAuth
